import Mathlib

/-!
Verification development for the plasmactl-platform state-management core.

The definitions below are a shallow embedding of the Python modules
`state_management_components.py` (version fetchers, state reconciler,
snapshot retention) and `platform_components.py` (dependency-graph
builder).  Python dicts are modelled as association lists with
replace-first-else-append assignment, matching dict key-update
semantics; Python exceptions are modelled with `Except` or with
explicit early returns where the source catches them.
-/

/-! ## Association lists (Python dict model) -/

/-- Lookup of a key in an association list, first match wins
(Python `d[k]` / `k in d` on dicts, which hold unique keys). -/
def alookup {α : Type} : List (String × α) → String → Option α
  | [], _ => none
  | p :: t, k => if p.1 = k then some p.2 else alookup t k

/-- Python dict assignment `d[k] = v`: replace the value at an existing
key in place, else append the new binding. -/
def dictSet {α : Type} : List (String × α) → String → α → List (String × α)
  | [], k, v => [(k, v)]
  | p :: t, k, v => if p.1 = k then (k, v) :: t else p :: dictSet t k v

/-- Python `d.update(other)`: assign every binding of `other` into `d`
in order. -/
def dictUpdate {α : Type} (d other : List (String × α)) : List (String × α) :=
  other.foldl (fun a p => dictSet a p.1 p.2) d

@[simp] theorem alookup_nil {α : Type} (k : String) :
    alookup ([] : List (String × α)) k = none := rfl

theorem alookup_cons {α : Type} (p : String × α) (t : List (String × α)) (k : String) :
    alookup (p :: t) k = if p.1 = k then some p.2 else alookup t k := rfl

theorem alookup_dictSet {α : Type} (d : List (String × α)) (k k' : String) (v : α) :
    alookup (dictSet d k v) k' = if k = k' then some v else alookup d k' := by
  induction d with
  | nil =>
    by_cases h : k = k' <;> simp [dictSet, alookup, h]
  | cons p t ih =>
    by_cases hp : p.1 = k
    · by_cases h : k = k'
      · simp [dictSet, alookup, hp, h]
      · have hpk' : ¬ p.1 = k' := fun hc => h (hp.symm.trans hc)
        simp [dictSet, alookup, hp, h, hpk']
    · by_cases h' : p.1 = k'
      · have h2 : ¬ k = k' := fun hc => hp (h'.trans hc.symm)
        have h3 : ¬ k' = k := fun hc => h2 hc.symm
        simp [dictSet, alookup, hp, h', h2, h3]
      · simp [dictSet, alookup, hp, h', ih]

theorem alookup_eq_none_of_not_mem {α : Type} (d : List (String × α)) (k : String)
    (h : k ∉ d.map Prod.fst) : alookup d k = none := by
  induction d with
  | nil => rfl
  | cons p t ih =>
    simp only [List.map_cons, List.mem_cons] at h
    push_neg at h
    have hp : ¬ p.1 = k := fun hc => h.1 hc.symm
    simp [alookup, hp, ih h.2]

theorem alookup_mem {α : Type} {d : List (String × α)} {k : String} {v : α}
    (h : alookup d k = some v) : (k, v) ∈ d := by
  induction d with
  | nil => simp [alookup] at h
  | cons p t ih =>
    by_cases hp : p.1 = k
    · simp [alookup, hp] at h
      have : p = (k, v) := by
        cases p
        simp only [Prod.mk.injEq]
        exact ⟨hp, h⟩
      exact this ▸ List.mem_cons_self _ _
    · simp [alookup, hp] at h
      exact List.mem_cons_of_mem _ (ih h)

theorem alookup_isSome_mem_keys {α : Type} {d : List (String × α)} {k : String} {v : α}
    (h : alookup d k = some v) : k ∈ d.map Prod.fst := by
  induction d with
  | nil => simp [alookup] at h
  | cons p t ih =>
    by_cases hp : p.1 = k
    · simp [hp.symm]
    · simp [alookup, hp] at h
      simp [ih h]

/-- With unique keys in `other`, updating behaves as a left-biased
override on lookups. -/
theorem alookup_dictUpdate {α : Type} (d other : List (String × α)) (k : String)
    (hnd : (other.map Prod.fst).Nodup) :
    alookup (dictUpdate d other) k = (alookup other k).orElse (fun _ => alookup d k) := by
  induction other generalizing d with
  | nil => simp [dictUpdate, alookup]
  | cons p t ih =>
    simp only [List.map_cons, List.nodup_cons] at hnd
    have step : dictUpdate d (p :: t) = dictUpdate (dictSet d p.1 p.2) t := rfl
    rw [step, ih _ hnd.2]
    by_cases h : p.1 = k
    · have : alookup t k = none := by
        apply alookup_eq_none_of_not_mem
        rw [← h] at *
        exact hnd.1
      simp [alookup, h, this, alookup_dictSet]
    · simp [alookup, h, alookup_dictSet]

/-! ## Character-list string primitives (Python `in`, `split`, `replace`) -/

/-- Python substring test `sub in s`, on character lists. -/
def containsL (sub : List Char) : List Char → Bool
  | [] => sub.isEmpty
  | c :: t => sub.isPrefixOf (c :: t) || containsL sub t

/-- Python `s.split(sep)` for a non-empty separator, on character lists:
left-to-right, non-overlapping, always at least one piece.  Fuel-driven
structural recursion (the fuel is instantiated with the list length,
which always suffices). -/
def splitOnAux (sep : List Char) : Nat → List Char → List (List Char)
  | _, [] => [[]]
  | 0, l => [l]
  | fuel + 1, c :: t =>
    if !sep.isEmpty && sep.isPrefixOf (c :: t) then
      [] :: splitOnAux sep fuel ((c :: t).drop sep.length)
    else
      match splitOnAux sep fuel t with
      | [] => [[c]]
      | hd :: r => (c :: hd) :: r

/-- Python `s.replace(pat, rep)` for a non-empty pattern, on character
lists: replace all non-overlapping occurrences, left to right. -/
def replaceAllAux (pat rep : List Char) : Nat → List Char → List Char
  | _, [] => []
  | 0, l => l
  | fuel + 1, c :: t =>
    if !pat.isEmpty && pat.isPrefixOf (c :: t) then
      rep ++ replaceAllAux pat rep fuel ((c :: t).drop pat.length)
    else
      c :: replaceAllAux pat rep fuel t

def splitOnL (sep l : List Char) : List (List Char) := splitOnAux sep l.length l

def replaceAllL (pat rep l : List Char) : List Char := replaceAllAux pat rep l.length l

/-- Python `sub in s` on strings. -/
def pyContains (s sub : String) : Bool := containsL sub.data s.data

/-- Python `s.split(sep)` on strings. -/
def pySplit (s sep : String) : List String :=
  (splitOnL sep.data s.data).map (fun l => String.mk l)

/-- Python `s.replace(pat, rep)` on strings. -/
def pyReplace (s pat rep : String) : String :=
  String.mk (replaceAllL pat.data rep.data s.data)


example : pySplit "abc123_default-cur" "_" = ["abc123", "default-cur"] := by decide
example : pyReplace "default-cur" "-cur" "" = "default" := by decide
example : pyContains "a__b" "__" = true ∧ pyContains "a_b" "__" = false := by decide

/-! ## Observation model

The three version fetchers produce, per component key, a dict mapping
channel names to lists of observed build ids.  The registry fetcher
additionally stores a string under the reserved key `current_version`
in the same dict.  `ObsVal` is the type of values appearing in such a
per-component dict. -/

inductive ObsVal : Type
  | ids (l : List String)
  | cur (s : String)
  deriving DecidableEq, Repr

/-- Per-component observation entry: channel name (or the reserved key
`current_version`) mapped to an observed value. -/
abbrev ObsEntry : Type := List (String × ObsVal)

/-- Merged observation map: component key to observation entry. -/
abbrev ObsMap : Type := List (String × ObsEntry)

/-- Python `is None` on an observation value.  The fetchers only ever
store id lists and current-version strings, and `state_helper` reads
values through `.get(tag, [])`, whose default is `[]`; no reachable
value is `None`, so no constructor models it. -/
def pyIsNone : ObsVal → Bool := fun _ => false

/-- Python membership `v in x`: list membership when `x` is a list of
ids, substring containment when `x` is a string. -/
def pyInVal (v : String) : ObsVal → Bool
  | ObsVal.ids l => l.contains v
  | ObsVal.cur s => pyContains s v

/-- Python `old_version.get(tag, [])`. -/
def obsGetD (e : ObsEntry) (tag : String) : ObsVal :=
  (alookup e tag).getD (ObsVal.ids [])

/-! ## State reconciler (`StateCreator`) -/

/-- One per-component, per-channel state record, as built by
`StateCreator.state_helper`.  The Python field `exists` is a Lean
keyword, hence the trailing underscore. -/
structure StateRec : Type where
  mrv : ObsVal
  mrv_cur : Option ObsVal
  exists_ : Bool
  fresh : Bool
  build : Bool
  deriving DecidableEq, Repr

/-- The record built by `StateCreator.state_helper` for one channel:
`mrv` is `old_version.get(tag, [])`; `mrv_cur` is
`old_version.get("current_version", old_version.get(tag, None))`;
`exists` is `old_version.get(tag, []) is not None`; `fresh` is
`new_version in old_version.get(tag, [])`; `build` is its negation. -/
def state_helper_rec (new_version tag : String) (old_version : ObsEntry) : StateRec :=
  { mrv := obsGetD old_version tag
    mrv_cur := (alookup old_version "current_version").orElse
      (fun _ => alookup old_version tag)
    exists_ := !(pyIsNone (obsGetD old_version tag))
    fresh := pyInVal new_version (obsGetD old_version tag)
    build := !(pyInVal new_version (obsGetD old_version tag)) }

/-- `StateCreator.state_helper` proper: returns the one-key dict
mapping `tag` to the record. -/
def state_helper (new_version tag : String) (old_version : ObsEntry) :
    List (String × StateRec) :=
  [(tag, state_helper_rec new_version tag old_version)]

/-- A component record as seen by `StateCreator.create_state`: a dict
whose keys the reconciler reads are modelled as optional named fields
(`none` models a missing key, whose access raises `KeyError`); all
remaining keys are an opaque payload `restKeys`. -/
structure Comp : Type where
  mrv : Option String
  mrt : Option (List String)
  mrsn : Option String
  password : Option String
  state : Option (List (String × StateRec))
  restKeys : List (String × String)
  deriving DecidableEq, Repr

/-- Python lines
`if "state" in states[mrn]: states[mrn]["state"].update(state)`
`else: states[mrn]["state"] = state`
applied with the one-key dict produced by `state_helper`. -/
def setState (c : Comp) (tag : String) (sr : StateRec) : Comp :=
  { c with state := some (match c.state with
      | some s => dictSet s tag sr
      | none => [(tag, sr)]) }

/-- The templated password written in the observed branch:
`'{{ %s_service_plain_password|default("") }}' % machine_mrsn`. -/
def passwordTemplate (machineMrsn : String) : String :=
  "\x7b\x7b " ++ machineMrsn ++ "_service_plain_password|default(\"\") \x7d\x7d"

/-- The per-channel loop body of `create_state`.  For each `tag` of the
component's `mrt`: when `mrn in current_states and tag in
current_states[mrn]`, the password is overwritten from the component's
`mrsn` and `state_helper` is called with the component's observation
entry as `old_version`; otherwise `state_helper` is called without
`old_version`.  A missing `mrsn` key raises `KeyError` in the observed
branch, which the caller catches: processing of this component stops
and the partially updated record is what remains in the output. -/
def procTags (merged : ObsMap) (mrn mrv : String) : List String → Comp → Comp
  | [], c => c
  | tag :: rest, c =>
    match alookup merged mrn with
    | some e =>
      if (alookup e tag).isSome then
        match c.mrsn with
        | some sn =>
          let pw := some (passwordTemplate (pyReplace sn "-" "_"))
          let c1 := { c with password := pw }
          procTags merged mrn mrv rest
            (setState c1 tag (state_helper_rec mrv tag e))
        | none => c
      else
        procTags merged mrn mrv rest
          (setState c tag (state_helper_rec mrv tag []))
    | none =>
      procTags merged mrn mrv rest
        (setState c tag (state_helper_rec mrv tag []))

/-- Processing of one component inside the `try` of `create_state`:
`comp["mrv"]` is read first (a missing key raises before the component
is inserted, so it is dropped); then `states[mrn] = comp` inserts the
record; then the loop over `comp["mrt"]` runs (a missing `mrt` raises
after insertion, leaving the record unchanged). -/
def processComp (merged : ObsMap) (mrn : String) (comp : Comp) : Option Comp :=
  match comp.mrv with
  | none => none
  | some mrv =>
    match comp.mrt with
    | none => some comp
    | some tags => some (procTags merged mrn mrv tags comp)

/-- `StateCreator.create_state`: fold over the components dict; each
component is processed under `try`/`except` (exceptions are printed and
the loop continues). -/
def create_state (merged : ObsMap) (comps : List (String × Comp)) :
    List (String × Comp) :=
  comps.foldl (fun states pc =>
    match processComp merged pc.1 pc.2 with
    | none => states
    | some c => dictSet states pc.1 c) []

/-- Whether `mrn in current_states and tag in current_states[mrn]`. -/
def observedB (merged : ObsMap) (mrn tag : String) : Bool :=
  match alookup merged mrn with
  | some e => (alookup e tag).isSome
  | none => false

/-- The observed id list for a component key and channel, taken as
empty when the component, the channel, or a list-shaped value for it is
absent. -/
def obsIds (merged : ObsMap) (mrn tag : String) : List String :=
  match alookup merged mrn with
  | some e =>
    match alookup e tag with
    | some (ObsVal.ids l) => l
    | _ => []
  | none => []

/-- The observation value stored for a component key and channel. -/
def obsValAt (merged : ObsMap) (mrn tag : String) : Option ObsVal :=
  (alookup merged mrn).bind (fun e => alookup e tag)

/-- Whether the Python `try` body of `create_state` raises for this
component: a missing `mrv` key, a missing `mrt` key, or a missing
`mrsn` key when some declared channel is observed (the observed branch
reads `comp["mrsn"]`). -/
def processRaises (merged : ObsMap) (mrn : String) (comp : Comp) : Bool :=
  comp.mrv.isNone || comp.mrt.isNone ||
    (comp.mrsn.isNone &&
      (comp.mrt.getD []).any (fun t => observedB merged mrn t))

/-! ## Reconciler lemmas -/

/-- The state record visible at a channel of a component record. -/
def stateAt (c : Comp) (tag : String) : Option StateRec :=
  c.state.bind (fun s => alookup s tag)

/-- The record `state_helper` is called with for a given channel: the
component's observation entry when the channel is observed, the empty
dict otherwise. -/
def helperFor (merged : ObsMap) (mrn mrv tag : String) : StateRec :=
  match alookup merged mrn with
  | some e =>
    if (alookup e tag).isSome then state_helper_rec mrv tag e
    else state_helper_rec mrv tag []
  | none => state_helper_rec mrv tag []

theorem stateAt_setState_self (c : Comp) (t : String) (sr : StateRec) :
    stateAt (setState c t sr) t = some sr := by
  cases hs : c.state with
  | none => simp [stateAt, setState, hs, alookup]
  | some s => simp [stateAt, setState, hs, alookup_dictSet]

theorem stateAt_setState_other (c : Comp) (t tag : String) (sr : StateRec)
    (h : ¬ t = tag) : stateAt (setState c t sr) tag = stateAt c tag := by
  cases hs : c.state with
  | none => simp [stateAt, setState, hs, alookup, h]
  | some s => simp [stateAt, setState, hs, alookup_dictSet, h]

theorem stateAt_password (c : Comp) (pw : Option String) (tag : String) :
    stateAt { c with password := pw } tag = stateAt c tag := rfl

theorem procTags_stateAt_preserved (merged : ObsMap) (mrn mrv tag : String)
    (tags : List String) :
    ∀ c : Comp, stateAt c tag = some (helperFor merged mrn mrv tag) →
      stateAt (procTags merged mrn mrv tags c) tag =
        some (helperFor merged mrn mrv tag) := by
  induction tags with
  | nil => intro c h; exact h
  | cons t rest ih =>
    intro c h
    by_cases he : (alookup merged mrn).isSome
    · obtain ⟨e, hee⟩ := Option.isSome_iff_exists.mp he
      by_cases ho : (alookup e t).isSome
      · cases hsn : c.mrsn with
        | none => simpa [procTags, hee, ho, hsn] using h
        | some sn =>
          simp only [procTags, hee, ho, hsn, if_pos]
          apply ih
          by_cases ht : t = tag
          · subst ht
            rw [stateAt_setState_self]
            simp [helperFor, hee, ho]
          · rw [stateAt_setState_other _ _ _ _ ht]
            simpa [stateAt] using h
      · simp only [procTags, hee, Bool.not_eq_true, ho, if_neg,
          Bool.false_eq_true, not_false_eq_true]
        apply ih
        by_cases ht : t = tag
        · subst ht
          rw [stateAt_setState_self]
          simp [helperFor, hee, ho]
        · rw [stateAt_setState_other _ _ _ _ ht]
          exact h
    · rw [Option.not_isSome_iff_eq_none] at he
      simp only [procTags, he]
      apply ih
      by_cases ht : t = tag
      · subst ht
        rw [stateAt_setState_self]
        simp [helperFor, he]
      · rw [stateAt_setState_other _ _ _ _ ht]
        exact h

theorem procTags_mrsn (merged : ObsMap) (mrn mrv : String) (tags : List String) :
    ∀ c : Comp, (procTags merged mrn mrv tags c).mrsn = c.mrsn := by
  induction tags with
  | nil => intro c; rfl
  | cons t rest ih =>
    intro c
    cases he : alookup merged mrn with
    | none => simp [procTags, he, ih, setState]
    | some e =>
      by_cases ho : (alookup e t).isSome
      · cases hsn : c.mrsn with
        | none => simp [procTags, he, ho, hsn]
        | some sn => simp [procTags, he, ho, hsn, ih, setState]
      · simp [procTags, he, ho, ih, setState]

theorem procTags_stateAt (merged : ObsMap) (mrn mrv tag : String)
    (tags : List String) :
    ∀ (c : Comp) (sn : String), c.mrsn = some sn → tag ∈ tags →
      stateAt (procTags merged mrn mrv tags c) tag =
        some (helperFor merged mrn mrv tag) := by
  induction tags with
  | nil => intro c sn _ h; cases h
  | cons t rest ih =>
    intro c sn hsn htag
    by_cases ht : t = tag
    · subst ht
      cases he : alookup merged mrn with
      | none =>
        simp only [procTags, he]
        apply procTags_stateAt_preserved
        rw [stateAt_setState_self]
        simp [helperFor, he]
      | some e =>
        by_cases ho : (alookup e t).isSome
        · simp only [procTags, he, ho, if_pos, hsn]
          apply procTags_stateAt_preserved
          rw [stateAt_setState_self]
          simp [helperFor, he, ho]
        · simp only [procTags, he, Bool.not_eq_true, ho, Bool.false_eq_true,
            not_false_eq_true, if_neg]
          apply procTags_stateAt_preserved
          rw [stateAt_setState_self]
          simp [helperFor, he, ho]
    · have htr : tag ∈ rest := by
        cases htag with
        | head => exact absurd rfl ht
        | tail _ h => exact h
      cases he : alookup merged mrn with
      | none =>
        simp only [procTags, he]
        exact ih _ sn (by simp [setState, hsn]) htr
      | some e =>
        by_cases ho : (alookup e t).isSome
        · simp only [procTags, he, ho, if_pos, hsn]
          exact ih _ sn (by simp [setState, hsn]) htr
        · simp only [procTags, he, Bool.not_eq_true, ho, Bool.false_eq_true,
            not_false_eq_true, if_neg]
          exact ih _ sn (by simp [setState, hsn]) htr

theorem procTags_frame (merged : ObsMap) (mrn mrv : String) (tags : List String) :
    ∀ c : Comp, (procTags merged mrn mrv tags c).mrv = c.mrv ∧
      (procTags merged mrn mrv tags c).mrt = c.mrt ∧
      (procTags merged mrn mrv tags c).mrsn = c.mrsn ∧
      (procTags merged mrn mrv tags c).restKeys = c.restKeys := by
  induction tags with
  | nil => intro c; exact ⟨rfl, rfl, rfl, rfl⟩
  | cons t rest ih =>
    intro c
    cases he : alookup merged mrn with
    | none => simpa [procTags, he, setState] using ih (setState c t (state_helper_rec mrv t []))
    | some e =>
      by_cases ho : (alookup e t).isSome
      · cases hsn : c.mrsn with
        | none => simp [procTags, he, ho, hsn]
        | some sn =>
          have := ih (setState { c with password := some (passwordTemplate (pyReplace sn "-" "_")) } t (state_helper_rec mrv t e))
          simpa [procTags, he, ho, hsn, setState] using this
      · have := ih (setState c t (state_helper_rec mrv t []))
        simpa [procTags, he, ho, setState] using this

theorem procTags_password (merged : ObsMap) (mrn mrv : String) (tags : List String) :
    ∀ (c : Comp) (sn : String), c.mrsn = some sn →
      (procTags merged mrn mrv tags c).password =
        (if tags.any (fun t => observedB merged mrn t)
         then some (passwordTemplate (pyReplace sn "-" "_"))
         else c.password) := by
  induction tags with
  | nil => intro c sn _; rfl
  | cons t rest ih =>
    intro c sn hsn
    cases he : alookup merged mrn with
    | none =>
      have hob : observedB merged mrn t = false := by simp [observedB, he]
      have := ih (setState c t (state_helper_rec mrv t [])) sn (by simp [setState, hsn])
      simp only [procTags, he, List.any_cons, hob, Bool.false_or]
      rw [this]
      simp [setState]
    | some e =>
      by_cases ho : (alookup e t).isSome
      · have hob : observedB merged mrn t = true := by simp [observedB, he, ho]
        have := ih (setState { c with password := some (passwordTemplate (pyReplace sn "-" "_")) } t (state_helper_rec mrv t e)) sn (by simp [setState, hsn])
        rw [hsn] at this
        simp only [procTags, he, ho, if_pos, hsn, List.any_cons, hob, Bool.true_or,
          if_true]
        rw [this]
        by_cases hr : rest.any (fun t => observedB merged mrn t) <;> simp [hr, setState]
      · have hob : observedB merged mrn t = false := by
          simp [observedB, he, Option.not_isSome_iff_eq_none.mp ho]
        have := ih (setState c t (state_helper_rec mrv t [])) sn (by simp [setState, hsn])
        simp only [procTags, he, Bool.not_eq_true, ho, Bool.false_eq_true,
          not_false_eq_true, if_neg, List.any_cons, hob, Bool.false_or]
        rw [this]
        simp [setState]

/-- Folding the remaining components never touches a key that none of
them carries. -/
theorem create_state_fold_frame (merged : ObsMap) (mrn : String) :
    ∀ (comps : List (String × Comp)) (s0 : List (String × Comp)),
      mrn ∉ comps.map Prod.fst →
      alookup (comps.foldl (fun states pc =>
        match processComp merged pc.1 pc.2 with
        | none => states
        | some c => dictSet states pc.1 c) s0) mrn = alookup s0 mrn := by
  intro comps
  induction comps with
  | nil => intro s0 _; rfl
  | cons p rest ih =>
    intro s0 h
    simp only [List.map_cons, List.mem_cons] at h
    push_neg at h
    simp only [List.foldl_cons]
    rw [ih _ h.2]
    cases hp : processComp merged p.1 p.2 with
    | none => rfl
    | some c =>
      have hk : ¬ p.1 = mrn := fun hc => h.1 hc.symm
      rw [alookup_dictSet]
      simp [hk]

/-- Lookup of a component's key in the output of `create_state`: the
result of processing that component (`none` means its `mrv` read raised
before insertion). -/
theorem create_state_alookup (merged : ObsMap) :
    ∀ (comps : List (String × Comp)) (s0 : List (String × Comp))
      (mrn : String) (comp : Comp),
      (comps.map Prod.fst).Nodup → (mrn, comp) ∈ comps →
      alookup (comps.foldl (fun states pc =>
        match processComp merged pc.1 pc.2 with
        | none => states
        | some c => dictSet states pc.1 c) s0) mrn =
        (processComp merged mrn comp).elim (alookup s0 mrn) some := by
  intro comps
  induction comps with
  | nil => intro s0 mrn comp _ hmem; cases hmem
  | cons p rest ih =>
    intro s0 mrn comp hnd hmem
    simp only [List.map_cons, List.nodup_cons] at hnd
    simp only [List.foldl_cons]
    cases hmem with
    | head =>
      rw [create_state_fold_frame merged mrn rest _ hnd.1]
      cases hp : processComp merged mrn comp with
      | none => simp [hp]
      | some c => simp [hp, alookup_dictSet]
    | tail _ hmem' =>
      have hk : ¬ p.1 = mrn := by
        intro hc
        exact hnd.1 (hc ▸ (List.mem_map.mpr ⟨(mrn, comp), hmem', rfl⟩))
      rw [ih _ mrn comp hnd.2 hmem']
      cases hp : processComp merged p.1 p.2 with
      | none => rfl
      | some c => rw [alookup_dictSet]; simp [hk]

theorem helperFor_fresh (merged : ObsMap) (mrn mrv tag : String)
    (hwf : ∀ s, obsValAt merged mrn tag ≠ some (ObsVal.cur s)) :
    (helperFor merged mrn mrv tag).fresh = (obsIds merged mrn tag).contains mrv := by
  cases he : alookup merged mrn with
  | none => simp [helperFor, obsIds, he, state_helper_rec, obsGetD, pyInVal, alookup]
  | some e =>
    cases hv : alookup e tag with
    | none =>
      simp [helperFor, obsIds, he, hv, state_helper_rec, obsGetD, pyInVal, alookup]
    | some v =>
      cases v with
      | ids l =>
        simp [helperFor, obsIds, he, hv, state_helper_rec, obsGetD, pyInVal]
      | cur s =>
        exact absurd (by simp [obsValAt, he, hv]) (hwf s)

theorem helperFor_build (merged : ObsMap) (mrn mrv tag : String) :
    (helperFor merged mrn mrv tag).build = !(helperFor merged mrn mrv tag).fresh := by
  cases he : alookup merged mrn with
  | none => simp [helperFor, he, state_helper_rec]
  | some e =>
    by_cases ho : (alookup e tag).isSome <;>
      simp [helperFor, he, ho, state_helper_rec]

/-! ## Claims about the reconciler -/

/-- Concrete component for exercising the zero-observation path:
declared version 7, single channel `default`. -/
def c1Comp : Comp :=
  { mrv := some "7", mrt := some ["default"], mrsn := some "svc-a",
    password := none, state := none, restKeys := [("mrn", "svc_a")] }

/-- A merged observation map that does not mention `svc_a` at all. -/
def c1Merged : ObsMap := [("other_comp", [("default", ObsVal.ids ["1"])])]

/-- C1: the claim states that a component with zero observations for a
channel gets a StateRecord with `exists = false`.  Evaluating
`create_state` at such an input shows the record produced for the
unobserved channel has `exists = true`: the source expression
`old_version.get(tag, []) is not None` is vacuously true because the
`.get` default is the empty list, never `None`. -/
theorem C1_zero_observations_exists_true :
    ((alookup (create_state c1Merged [("svc_a", c1Comp)]) "svc_a").bind
      (fun c => c.state.bind (fun s => alookup s "default"))) =
    some { mrv := ObsVal.ids [], mrv_cur := none, exists_ := true,
           fresh := false, build := true } := by decide

/-- C2: for a component found in the components dict with `mrv`, `mrt`
and `mrsn` keys present, and a declared channel whose stored
observation value (if any) is an id list, the reconciled StateRecord
for that channel has `fresh` equal to membership of the desired `mrv`
in the observed id list (taken as empty when the component or channel
was not observed) and `build = not fresh`. -/
theorem C2_fresh_build (merged : ObsMap) (comps : List (String × Comp))
    (mrn : String) (comp : Comp) (mrv sn : String) (tags : List String)
    (tag : String)
    (hnd : (comps.map Prod.fst).Nodup) (hmem : (mrn, comp) ∈ comps)
    (hmrv : comp.mrv = some mrv) (hmrt : comp.mrt = some tags)
    (hsn : comp.mrsn = some sn) (htag : tag ∈ tags)
    (hwf : ∀ s, obsValAt merged mrn tag ≠ some (ObsVal.cur s)) :
    ∃ c' sr, alookup (create_state merged comps) mrn = some c' ∧
      stateAt c' tag = some sr ∧
      sr.fresh = (obsIds merged mrn tag).contains mrv ∧
      sr.build = !sr.fresh := by
  have hcs := create_state_alookup merged comps [] mrn comp hnd hmem
  have hpc : processComp merged mrn comp =
      some (procTags merged mrn mrv tags comp) := by
    simp [processComp, hmrv, hmrt]
  rw [hpc] at hcs
  refine ⟨procTags merged mrn mrv tags comp, helperFor merged mrn mrv tag,
    hcs, procTags_stateAt merged mrn mrv tag tags comp sn hsn htag, ?_, ?_⟩
  · exact helperFor_fresh merged mrn mrv tag hwf
  · exact helperFor_build merged mrn mrv tag

/-- Concrete inputs for the C2 witness: `svc_a` desires version 7 and
version 7 is observed on channel `default`. -/
def c2Comp : Comp :=
  { mrv := some "7", mrt := some ["default"], mrsn := some "svc-a",
    password := none, state := none, restKeys := [] }

def c2Merged : ObsMap := [("svc_a", [("default", ObsVal.ids ["7"])])]

/-- Witness for C2 at a concrete input. -/
theorem C2_fresh_build_witness :
    ([("svc_a", c2Comp)].map Prod.fst).Nodup ∧
    ("svc_a", c2Comp) ∈ [("svc_a", c2Comp)] ∧
    c2Comp.mrv = some "7" ∧ c2Comp.mrt = some ["default"] ∧
    c2Comp.mrsn = some "svc-a" ∧ "default" ∈ ["default"] ∧
    (∀ s, obsValAt c2Merged "svc_a" "default" ≠ some (ObsVal.cur s)) ∧
    (∃ c' sr, alookup (create_state c2Merged [("svc_a", c2Comp)]) "svc_a" = some c' ∧
      stateAt c' "default" = some sr ∧
      sr.fresh = (obsIds c2Merged "svc_a" "default").contains "7" ∧
      sr.build = !sr.fresh) := by
  refine ⟨by decide, by decide, by decide, by decide, by decide, by decide,
    ?_, ?_⟩
  · intro s h
    simp [obsValAt, alookup] at h
  · exact C2_fresh_build c2Merged [("svc_a", c2Comp)] "svc_a" c2Comp "7" "svc-a"
      ["default"] "default" (by decide) (by decide) (by decide) (by decide)
      (by decide) (by decide) (by intro s h; simp [obsValAt, alookup] at h)

/-- Component whose processing raises after insertion: `mrv` is
present but the `mrt` key is missing, so `comp["mrt"]` raises
`KeyError` after `states[mrn] = comp` has run. -/
def c8Comp : Comp :=
  { mrv := some "1", mrt := none, mrsn := some "c",
    password := none, state := none, restKeys := [] }

/-- C8 counterexample: a component whose per-component processing
raises an error is nevertheless present, unchanged, in the output of
`create_state` — the claim says it must be entirely absent. -/
theorem C8_counterexample :
    processRaises [] "c" c8Comp = true ∧
    alookup (create_state [] [("c", c8Comp)]) "c" = some c8Comp ∧
    alookup (create_state [] [("c", c8Comp)]) "c" ≠ none := by decide

/-- C8 amended: a per-component error is caught and the pass continues;
the component is absent from the output exactly when the error is
raised reading its `mrv` key (before `states[mrn] = comp` runs); an
error raised at the `mrt` read, after insertion, leaves the component
present and unchanged in the output. -/
theorem C8_amended (merged : ObsMap) (comps : List (String × Comp))
    (mrn : String) (comp : Comp)
    (hnd : (comps.map Prod.fst).Nodup) (hmem : (mrn, comp) ∈ comps) :
    (comp.mrv = none → alookup (create_state merged comps) mrn = none) ∧
    (∀ v, comp.mrv = some v → comp.mrt = none →
      alookup (create_state merged comps) mrn = some comp) := by
  have hcs := create_state_alookup merged comps [] mrn comp hnd hmem
  have hdef : create_state merged comps = comps.foldl (fun states pc =>
    match processComp merged pc.1 pc.2 with
    | none => states
    | some c => dictSet states pc.1 c) [] := rfl
  constructor
  · intro hm
    rw [hdef, hcs]
    simp [processComp, hm]
  · intro v hv ht
    rw [hdef, hcs]
    simp [processComp, hv, ht]

/-- Witness for C8's amended statement at a concrete input. -/
theorem C8_amended_witness :
    ([("a", c8Comp), ("b", Comp.mk none none none none none [])].map Prod.fst).Nodup ∧
    ("b", Comp.mk none none none none none []) ∈
      [("a", c8Comp), ("b", Comp.mk none none none none none [])] ∧
    ((Comp.mk none none none none none [] : Comp).mrv = none →
      alookup (create_state [] [("a", c8Comp), ("b", Comp.mk none none none none none [])]) "b" = none) := by
  refine ⟨by decide, by decide, ?_⟩
  intro hm
  exact (C8_amended [] [("a", c8Comp), ("b", Comp.mk none none none none none [])]
    "b" (Comp.mk none none none none none []) (by decide) (by decide)).1 hm

/-- C10: for a component whose processing succeeds (its `mrv`, `mrt`
and `mrsn` keys are present), the output record agrees with the input
on every field other than `state` and `password`, and `password` is
overwritten with the templated lookup derived from the component's
short name exactly when some declared channel of the component is
present in the merged observation map. -/
theorem C10_frame (merged : ObsMap) (comps : List (String × Comp))
    (mrn : String) (comp : Comp) (mrv sn : String) (tags : List String)
    (hnd : (comps.map Prod.fst).Nodup) (hmem : (mrn, comp) ∈ comps)
    (hmrv : comp.mrv = some mrv) (hmrt : comp.mrt = some tags)
    (hsn : comp.mrsn = some sn) :
    ∃ c', alookup (create_state merged comps) mrn = some c' ∧
      c'.mrv = comp.mrv ∧ c'.mrt = comp.mrt ∧ c'.mrsn = comp.mrsn ∧
      c'.restKeys = comp.restKeys ∧
      c'.password = (if tags.any (fun t => observedB merged mrn t)
        then some (passwordTemplate (pyReplace sn "-" "_"))
        else comp.password) := by
  have hcs := create_state_alookup merged comps [] mrn comp hnd hmem
  have hpc : processComp merged mrn comp =
      some (procTags merged mrn mrv tags comp) := by
    simp [processComp, hmrv, hmrt]
  rw [hpc] at hcs
  obtain ⟨h1, h2, h3, h4⟩ := procTags_frame merged mrn mrv tags comp
  exact ⟨procTags merged mrn mrv tags comp, hcs, h1, h2, h3, h4,
    procTags_password merged mrn mrv tags comp sn hsn⟩

/-- Concrete inputs for the C10 witness: one observed channel, one
unrelated extra field in the payload. -/
def c10Comp : Comp :=
  { mrv := some "2", mrt := some ["default", "canary"], mrsn := some "my-svc",
    password := some "old", state := some [], restKeys := [("mri", "img")] }

def c10Merged : ObsMap := [("my_svc", [("default", ObsVal.ids ["1", "2"])])]

/-- Witness for C10 at a concrete input. -/
theorem C10_frame_witness :
    ([("my_svc", c10Comp)].map Prod.fst).Nodup ∧
    ("my_svc", c10Comp) ∈ [("my_svc", c10Comp)] ∧
    c10Comp.mrv = some "2" ∧ c10Comp.mrt = some ["default", "canary"] ∧
    c10Comp.mrsn = some "my-svc" ∧
    (∃ c', alookup (create_state c10Merged [("my_svc", c10Comp)]) "my_svc" = some c' ∧
      c'.mrv = c10Comp.mrv ∧ c'.mrt = c10Comp.mrt ∧ c'.mrsn = c10Comp.mrsn ∧
      c'.restKeys = c10Comp.restKeys ∧
      c'.password = (if ["default", "canary"].any (fun t => observedB c10Merged "my_svc" t)
        then some (passwordTemplate (pyReplace "my-svc" "-" "_"))
        else c10Comp.password)) := by
  refine ⟨by decide, by decide, by decide, by decide, by decide, ?_⟩
  exact C10_frame c10Merged [("my_svc", c10Comp)] "my_svc" c10Comp "2" "my-svc"
    ["default", "canary"] (by decide) (by decide) (by decide) (by decide)
    (by decide)

/-! ## Top-level merge of the three fetcher outputs (`main`)

`main` builds `merged_data = {}` and then runs
`merged_data.update(os_data)`, `merged_data.update(cluster_data)`,
`merged_data.update(images_data)` in that order. -/

/-- The merged observation map built in `main` from the host-environment
(`os_data`), cluster (`cluster_data`) and registry (`images_data`)
fetcher outputs, in that update order. -/
def mergeAll (os_data cluster_data images_data : ObsMap) : ObsMap :=
  dictUpdate (dictUpdate (dictUpdate [] os_data) cluster_data) images_data

/-- C3: the top-level merge is shallow by component: for any component
key, the merged entry is the whole entry from the latest source in the
precedence order host-environment, then cluster, then registry, that
carries the key; the earlier sources' channels for that key are not
deep-merged in. -/
theorem C3_shallow_merge (os_data cluster_data images_data : ObsMap)
    (hos : (os_data.map Prod.fst).Nodup)
    (hcl : (cluster_data.map Prod.fst).Nodup)
    (him : (images_data.map Prod.fst).Nodup) :
    ∀ (k : String) (e : ObsEntry),
      (alookup images_data k = some e →
        alookup (mergeAll os_data cluster_data images_data) k = some e) ∧
      (alookup images_data k = none → alookup cluster_data k = some e →
        alookup (mergeAll os_data cluster_data images_data) k = some e) ∧
      (alookup images_data k = none → alookup cluster_data k = none →
        alookup os_data k = some e →
        alookup (mergeAll os_data cluster_data images_data) k = some e) := by
  intro k e
  have h1 := alookup_dictUpdate (dictUpdate (dictUpdate [] os_data) cluster_data)
    images_data k him
  have h2 := alookup_dictUpdate (dictUpdate [] os_data) cluster_data k hcl
  have h3 := alookup_dictUpdate [] os_data k hos
  refine ⟨?_, ?_, ?_⟩
  · intro hi
    rw [mergeAll, h1, hi]
    rfl
  · intro hi hc
    rw [mergeAll, h1, hi, h2, hc]
    rfl
  · intro hi hc ho
    rw [mergeAll, h1, hi, h2, hc, h3, ho]
    rfl

/-- Concrete inputs for the C3 witness, the spec's own merge-precedence
example: component X reported by both the host-environment source and
the cluster source; the merged entry must be the cluster entry in its
entirety. -/
def c3Os : ObsMap := [("X", [("default", ObsVal.ids ["v1"])])]

def c3Cluster : ObsMap := [("X", [("default", ObsVal.ids ["v2"])])]

/-- Witness for C3 at the spec's merge-precedence example. -/
theorem C3_shallow_merge_witness :
    ((c3Os.map Prod.fst).Nodup ∧ (c3Cluster.map Prod.fst).Nodup ∧
      (([] : ObsMap).map Prod.fst).Nodup) ∧
    alookup c3Cluster "X" = some [("default", ObsVal.ids ["v2"])] ∧
    alookup (mergeAll c3Os c3Cluster []) "X" =
      some [("default", ObsVal.ids ["v2"])] := by
  refine ⟨⟨by decide, by decide, by decide⟩, by decide, ?_⟩
  exact ((C3_shallow_merge c3Os c3Cluster [] (by decide) (by decide)
    (by decide)) "X" [("default", ObsVal.ids ["v2"])]).2.1 (by decide) (by decide)

/-! ## Registry tag parsing (`ImagesVersionFetcher.fetch_from_registry`)

For each repository's tag list the fetcher builds `current_tag_dict`.
If some tag contains the substring `cur`, every tag containing `_` but
not `__` is split on underscores: the first segment is the build id,
the second segment with `-cur` occurrences removed is the channel.
Build ids are grouped per channel, and each tag containing `cur`
overwrites the single reserved key `current_version` of the dict with
its build id. -/

/-- The grouping step `current_tag_dict[suffix].append(prefix)` /
`current_tag_dict[suffix] = [prefix]`.  The channel key is a single
underscore-free segment and so never equals the reserved key
`current_version`; the `cur` case is therefore unreachable (in the
source it would raise `AttributeError` on a string). -/
def addTagEntry (d : ObsEntry) (chan tagId : String) : ObsEntry :=
  match alookup d chan with
  | some (ObsVal.ids l) => dictSet d chan (ObsVal.ids (l ++ [tagId]))
  | some (ObsVal.cur _) => d
  | none => d ++ [(chan, ObsVal.ids [tagId])]

/-- The per-repository tag-parsing loop of `fetch_from_registry`. -/
def parseRegistryTags (tags : List String) : ObsEntry :=
  if tags.any (fun t => pyContains t "cur") then
    tags.foldl (fun d cur =>
      if pyContains cur "_" && !(pyContains cur "__") then
        let parts := pySplit cur "_"
        let tagId := parts.headD ""
        let chan := pyReplace (parts.getD 1 "") "-cur" ""
        let d' := addTagEntry d chan tagId
        if pyContains cur "cur" then dictSet d' "current_version" (ObsVal.cur tagId)
        else d'
      else d) []
  else []

/-- The spec's synthetic tag list for the tag-encoding round trip. -/
def c4Tags : List String :=
  ["abc123_default-cur", "def456_default", "xyz789_canary-cur"]

/-- Whether the parser output records `c` as a channel's current
version: the only current-version datum the registry parser produces
is the single reserved `current_version` key. -/
def recordsCurrent (e : ObsEntry) (c : String) : Bool :=
  alookup e "current_version" == some (ObsVal.cur c)

/-! ## Local-image tag parsing
(`ImagesVersionFetcher.process_crictl_output`)

The local-image fetcher parses the line-oriented `crictl images`
output: the input is stripped, split into lines, and the last line is
discarded (`crictl_output.pop()`).  Each remaining line is split on
whitespace into image and tag columns. -/

/-- Whitespace characters recognised by Python's `strip` and
no-argument `split` in this input domain. -/
def isWsChar (c : Char) : Bool := c == ' ' || c == '\n' || c == '\t' || c == '\r'

/-- Python `s.strip()`. -/
def pyStrip (s : String) : String :=
  String.mk (((s.data.dropWhile isWsChar).reverse.dropWhile isWsChar).reverse)

/-- Python no-argument `s.split()`: split on whitespace runs,
discarding empties.  Fuel-driven structural recursion, the fuel
instantiated with the list length. -/
def wordsAux : Nat → List Char → List (List Char)
  | _, [] => []
  | 0, l => [l]
  | fuel + 1, c :: t =>
    if isWsChar c then wordsAux fuel t
    else (c :: t.takeWhile (fun x => !(isWsChar x))) ::
      wordsAux fuel (t.dropWhile (fun x => !(isWsChar x)))

/-- Python no-argument `s.split()` on strings. -/
def pyWords (s : String) : List String :=
  (wordsAux s.data.length s.data).map (fun l => String.mk l)

/-- Python `s.split(sep, 1)`: split at the first occurrence of the
separator only. -/
def splitOnceAux (sep : List Char) : Nat → List Char → List (List Char)
  | _, [] => [[]]
  | 0, l => [l]
  | fuel + 1, c :: t =>
    if !sep.isEmpty && sep.isPrefixOf (c :: t) then
      [[], (c :: t).drop sep.length]
    else
      match splitOnceAux sep fuel t with
      | [] => [[c]]
      | hd :: r => (c :: hd) :: r

/-- Python `s.split(sep, 1)` on strings. -/
def pySplitOnce (s sep : String) : List String :=
  (splitOnceAux sep.data s.data.length s.data).map (fun l => String.mk l)

/-- Python `sep.join(parts)`. -/
def joinWith (sep : String) : List String → String
  | [] => ""
  | [x] => x
  | x :: xs => x ++ sep ++ joinWith sep xs

/-- `ImagesVersionFetcher.process_crictl_output`: strip the output,
split into lines, discard the last line, and for each line take the
image and tag columns.  Tags not containing `cur`, without `_`, or
with `__` are skipped; a processed tag is split at its first `_` into
build id and channel (`-cur` occurrences removed).  The component key
is the image path with the registry uri segments removed, joined with
`__`, dashes replaced.  Each processed tag assigns
`result[mrn][tag_suffix] = [tag_id]`: one build id per channel,
overwriting, with no current-version marker. -/
def process_crictl_output (stdout : String) (state_builder_images_uri : String) :
    ObsMap :=
  let crictl_output := (pySplit (pyStrip stdout) "\n").dropLast
  crictl_output.foldl (fun result line =>
    let columns := pyWords line
    if columns.length < 2 then result
    else
      let image := columns.headD ""
      let tag := columns.getD 1 ""
      if !(pyContains tag "cur") then result
      else if pyContains tag "_" && !(pyContains tag "__") then
        let tag_parts := pySplitOnce tag "_"
        if tag_parts.length = 2 then
          let tag_id := tag_parts.headD ""
          let tag_suffix := pyReplace (tag_parts.getD 1 "") "-cur" ""
          let image_parts := pySplit image "/"
          let mrn := pyReplace (joinWith "__" (image_parts.filter
            (fun part => !(part == state_builder_images_uri)))) "-" "_"
          match alookup result mrn with
          | some entry =>
            dictSet result mrn (dictSet entry tag_suffix (ObsVal.ids [tag_id]))
          | none => result ++ [(mrn, [(tag_suffix, ObsVal.ids [tag_id])])]
        else result
      else result) []

/-- The spec's synthetic tags presented to the local-image parser as
`crictl` lines for one image, plus a trailing line that
`crictl_output.pop()` discards. -/
def c4CrictlStdout : String :=
  "reg/apps/svc-a abc123_default-cur\nreg/apps/svc-a def456_default\nreg/apps/svc-a xyz789_canary-cur\nreg/apps/other zzz_default-cur"

/-- Two `cur` tags on the same channel of one image, plus a discarded
trailing line: exhibits the overwrite (no grouping) of the local-image
parser. -/
def c4CrictlOverwrite : String :=
  "reg/a x1_default-cur\nreg/a x2_default-cur\nreg/a trailing_ignored-cur"

set_option maxRecDepth 4000 in
/-- C4 counterexample: neither cited parser produces the claimed
output on the spec's synthetic tags.  The registry parser does not
produce a per-channel current version: it keeps one component-level
`current_version` key, which the later `canary` tag overwrites to
`xyz789`, so `abc123` is recorded as current nowhere.  The local-image
parser skips `def456_default` entirely (no `cur` in the tag), so
channel `default` does not group `[abc123, def456]`, and it records no
current-version marker at all. -/
theorem C4_counterexample :
    (parseRegistryTags c4Tags =
      [("default", ObsVal.ids ["abc123", "def456"]),
       ("current_version", ObsVal.cur "xyz789"),
       ("canary", ObsVal.ids ["xyz789"])] ∧
     recordsCurrent (parseRegistryTags c4Tags) "abc123" = false ∧
     recordsCurrent (parseRegistryTags c4Tags) "xyz789" = true) ∧
    (process_crictl_output c4CrictlStdout "reg" =
      [("apps__svc_a", [("default", ObsVal.ids ["abc123"]),
                        ("canary", ObsVal.ids ["xyz789"])])] ∧
     alookup ((alookup (process_crictl_output c4CrictlStdout "reg") "apps__svc_a").getD [])
       "default" ≠ some (ObsVal.ids ["abc123", "def456"]) ∧
     alookup ((alookup (process_crictl_output c4CrictlStdout "reg") "apps__svc_a").getD [])
       "current_version" = none) := by decide

set_option maxRecDepth 4000 in
/-- C4 amended: the two parsers diverge from the claimed contract in
different ways.  The registry parser, when at least one tag contains
`cur`, groups build ids per channel in encounter order but records a
single component-level `current_version` — the build id of the last
processed tag containing `cur` — instead of one current version per
channel; on the synthetic list it produces
`default: [abc123, def456]`, `current_version: xyz789`,
`canary: [xyz789]`.  The local-image parser processes only tags
containing `cur`, keeps a single build id per channel (each
processed tag overwrites the channel's entry, no grouping), and
records no current-version marker; on the synthetic tags it produces
`default: [abc123]`, `canary: [xyz789]`. -/
theorem C4_amended :
    parseRegistryTags c4Tags =
      [("default", ObsVal.ids ["abc123", "def456"]),
       ("current_version", ObsVal.cur "xyz789"),
       ("canary", ObsVal.ids ["xyz789"])] ∧
    process_crictl_output c4CrictlStdout "reg" =
      [("apps__svc_a", [("default", ObsVal.ids ["abc123"]),
                        ("canary", ObsVal.ids ["xyz789"])])] ∧
    process_crictl_output c4CrictlOverwrite "reg" =
      [("a", [("default", ObsVal.ids ["x2"])])] := by decide

/-! ## Registry catalog pagination (`get_paths` / `run_command`)

`get_paths` loops over catalog pages while a `Link` header is present.
`run_command` parses each response; a body carrying an `errors` payload
makes it raise `ConnectionRefusedError` with the error's code and
message.  The whole loop body sits under
`try: ... except Exception as e: logging.error(...); pass; return paths`,
so the raised error is caught and the repositories gathered so far are
returned. -/

/-- The body of one catalog response: either a repository list or an
`errors` payload (first error's code and message). -/
inductive CatalogBody : Type
  | repositories (repos : List String)
  | errorPayload (code msg : String)
  deriving DecidableEq, Repr

/-- One catalog page as served to `run_command`: its parsed body and
the target of its `Link` header, if any. -/
structure CatalogPage : Type where
  body : CatalogBody
  link : Option String
  deriving DecidableEq, Repr

/-- `run_command` in catalog mode: an `errors` payload raises
`ConnectionRefusedError` with the error's code and message; otherwise
the parsed values and the pagination cursor are returned. -/
def runCommandCatalog (p : CatalogPage) :
    Except String (List String × Option String) :=
  match p.body with
  | CatalogBody.errorPayload c m =>
    Except.error ("Error: Command failed with exit code " ++ c ++
      ", and message: " ++ m ++ ".")
  | CatalogBody.repositories rs => Except.ok (rs, p.link)

/-- The `while link_exists` loop of `get_paths`, consuming the pages
the registry serves in order; an exception from `run_command` is
caught and the paths accumulated so far are returned. -/
def getPathsGo : List CatalogPage → List String → List String
  | [], paths => paths
  | p :: rest, paths =>
    match runCommandCatalog p with
    | Except.error _ => paths
    | Except.ok (rs, link) =>
      match link with
      | some _ => getPathsGo rest (paths ++ rs)
      | none => paths ++ rs

/-- `get_paths`: paginate the catalog, starting from an empty path
list. -/
def get_paths (pages : List CatalogPage) : List String := getPathsGo pages []

/-- All repositories of a list of ok pages, in order. -/
def reposConcat : List CatalogPage → List String
  | [] => []
  | p :: t =>
    (match p.body with
     | CatalogBody.repositories rs => rs
     | CatalogBody.errorPayload _ _ => []) ++ reposConcat t

/-- One per-repository tag-list response: the parsed `tags` field
(`none` models JSON null, turned into `[]`) and the `name` field. -/
structure TagResp : Type where
  tags : Option (List String)
  name : String

/-- The tag-phase aggregation loop of `fetch_from_registry`: for each
repository path, parse its tag list and merge the per-repo dict into
the results under the normalized resource name.  The source aggregates
futures in completion order from a single thread; distinct paths with
distinct normalized names make the order immaterial, and the embedding
uses path order. -/
def fetchTagPhase (paths : List String) (resp : String → TagResp) :
    List (String × ObsEntry) :=
  paths.foldl (fun results p =>
    let r := resp p
    let parsed := parseRegistryTags (r.tags.getD [])
    let rname := pyReplace (pyReplace r.name "/" "__") "-" "_"
    match alookup results rname with
    | some existing => dictSet results rname (dictUpdate existing parsed)
    | none => results ++ [(rname, parsed)]) []

/-- `fetch_from_registry`: catalog pagination followed by the
per-repository tag phase over the gathered paths. -/
def fetch_from_registry (pages : List CatalogPage) (resp : String → TagResp) :
    List (String × ObsEntry) :=
  fetchTagPhase (get_paths pages) resp

/-- Concrete registry for the C5 counterexample: the first catalog page
lists `repo-a` and links onward; the second page is an authentication
error payload. -/
def c5Pages : List CatalogPage :=
  [{ body := CatalogBody.repositories ["repo-a"], link := some "next" },
   { body := CatalogBody.errorPayload "UNAUTHORIZED" "authentication required",
     link := none }]

def c5Resp : String → TagResp :=
  fun p => if p = "repo-a"
    then { tags := some ["abc_default-cur"], name := "repo-a" }
    else { tags := some [], name := p }

/-- C5 counterexample: the second catalog page carries an error
payload, `run_command` raises a `ConnectionRefusedError` for it, yet
the fetch does not abort: `get_paths` swallows the exception and
returns the partial path list, and the registry fetch completes with
partial registry data. -/
theorem C5_counterexample :
    (c5Pages.any (fun p => match p.body with
      | CatalogBody.errorPayload _ _ => true
      | _ => false) = true) ∧
    runCommandCatalog { body := CatalogBody.errorPayload "UNAUTHORIZED" "authentication required", link := none } =
      Except.error "Error: Command failed with exit code UNAUTHORIZED, and message: authentication required." ∧
    get_paths c5Pages = ["repo-a"] ∧
    fetch_from_registry c5Pages c5Resp =
      [("repo_a", [("default", ObsVal.ids ["abc"]),
                   ("current_version", ObsVal.cur "abc")])] := by
  refine ⟨by decide, rfl, by decide, ?_⟩
  rfl


/-- Pagination over a prefix of ok pages that all link onward, followed
by an error page: the loop accumulates exactly the prefix repositories
and the caught exception ends it there. -/
theorem getPathsGo_ok_then_error (e : CatalogPage) (rest : List CatalogPage)
    (c m : String) (hb : e.body = CatalogBody.errorPayload c m) :
    ∀ (good : List CatalogPage) (acc : List String),
      (∀ p ∈ good, (∃ rs, p.body = CatalogBody.repositories rs) ∧ p.link.isSome) →
      getPathsGo (good ++ e :: rest) acc = acc ++ reposConcat good := by
  intro good
  induction good with
  | nil =>
    intro acc _
    simp [getPathsGo, runCommandCatalog, hb, reposConcat]
  | cons p t ih =>
    intro acc hgood
    obtain ⟨⟨rs, hrs⟩, hlink⟩ := hgood p (List.mem_cons_self _ _)
    obtain ⟨lk, hlk⟩ := Option.isSome_iff_exists.mp hlink
    have ht : ∀ q ∈ t, (∃ rs, q.body = CatalogBody.repositories rs) ∧
        q.link.isSome := fun q hq => hgood q (List.mem_cons_of_mem _ hq)
    simp only [List.cons_append, getPathsGo, runCommandCatalog, hrs, hlk]
    show getPathsGo (t ++ e :: rest) (acc ++ rs) = acc ++ reposConcat (p :: t)
    rw [ih (acc ++ rs) ht]
    simp [reposConcat, hrs]

/-- C5 amended: an error payload met during catalog pagination makes
`run_command` raise a `ConnectionRefusedError` naming the registry
error's code and message, but `get_paths` catches it, logs it, and
returns exactly the repositories of the pages before the failing one;
the registry fetch then proceeds on that partial list instead of
aborting. -/
theorem C5_amended (good : List CatalogPage) (e : CatalogPage)
    (rest : List CatalogPage) (resp : String → TagResp)
    (hgood : ∀ p ∈ good, (∃ rs, p.body = CatalogBody.repositories rs) ∧
      p.link.isSome)
    (herr : ∃ c m, e.body = CatalogBody.errorPayload c m) :
    (∃ msg, runCommandCatalog e = Except.error msg) ∧
    get_paths (good ++ e :: rest) = reposConcat good ∧
    fetch_from_registry (good ++ e :: rest) resp =
      fetchTagPhase (reposConcat good) resp := by
  obtain ⟨c, m, hb⟩ := herr
  have hpaths : get_paths (good ++ e :: rest) = reposConcat good := by
    rw [get_paths, getPathsGo_ok_then_error e rest c m hb good [] hgood]
    rfl
  refine ⟨⟨_, by rw [runCommandCatalog, hb]⟩, hpaths, ?_⟩
  rw [fetch_from_registry, hpaths]

/-- Witness for C5's amended statement at the concrete registry of the
counterexample scenario. -/
theorem C5_amended_witness :
    (∀ p ∈ [({ body := CatalogBody.repositories ["repo-a"], link := some "next" } : CatalogPage)],
      (∃ rs, p.body = CatalogBody.repositories rs) ∧ p.link.isSome) ∧
    (∃ c m, ({ body := CatalogBody.errorPayload "UNAUTHORIZED" "authentication required", link := none } : CatalogPage).body = CatalogBody.errorPayload c m) ∧
    ((∃ msg, runCommandCatalog { body := CatalogBody.errorPayload "UNAUTHORIZED" "authentication required", link := none } = Except.error msg) ∧
      get_paths c5Pages = reposConcat [{ body := CatalogBody.repositories ["repo-a"], link := some "next" }] ∧
      fetch_from_registry c5Pages c5Resp =
        fetchTagPhase (reposConcat [{ body := CatalogBody.repositories ["repo-a"], link := some "next" }]) c5Resp) := by
  refine ⟨?_, ⟨"UNAUTHORIZED", "authentication required", rfl⟩, ?_⟩
  · intro p hp
    simp only [List.mem_singleton] at hp
    subst hp
    exact ⟨⟨["repo-a"], rfl⟩, rfl⟩
  · exact C5_amended [{ body := CatalogBody.repositories ["repo-a"], link := some "next" }]
      { body := CatalogBody.errorPayload "UNAUTHORIZED" "authentication required", link := none }
      [] c5Resp
      (by intro p hp
          simp only [List.mem_singleton] at hp
          subst hp
          exact ⟨⟨["repo-a"], rfl⟩, rfl⟩)
      ⟨"UNAUTHORIZED", "authentication required", rfl⟩

/-! ## Graph builder metadata handling (`VarsModule`)

`metadata(role)` returns `{}` with a printed message when the
per-component `meta/plasma.yaml` file is missing or lacks a `plasma`
object.  `add_resource` then reads `metadata['author']` and
`metadata['description']` without a guard, while `version`, `scope`,
`labels`, `tags` and `stage` are all read behind `in` guards. -/

/-- Python `d[k]`: a missing key raises `KeyError`. -/
def pyGetItem {α : Type} (d : List (String × α)) (k : String) : Except String α :=
  match alookup d k with
  | some v => Except.ok v
  | none => Except.error ("KeyError: " ++ k)

/-- `VarsModule.metadata`: `none` models a missing `meta/plasma.yaml`
file.  A missing file or a document without a `plasma` key yields the
empty dict. -/
def metadata (metaFile : Option (List (String × List (String × String)))) :
    List (String × String) :=
  match metaFile with
  | none => []
  | some meta => (alookup meta "plasma").getD []

/-- `VarsModule.kind_scheme`. -/
def kind_scheme : List (String × String) :=
  [("application", "app"), ("service", "svc"), ("flow", "flow"),
   ("executor", "executor"), ("skill", "skill"), ("entity", "ent"),
   ("software", "soft"), ("function", "function"), ("helper", "hp"),
   ("builder", "build"), ("library", "lib")]

/-- `VarsModule.normalize_name`:
`name.replace('-', '_').replace('.', '__')`. -/
def normalize_name (name : String) : String :=
  pyReplace (pyReplace name "-" "_") "." "__"

/-- The fields `add_resource` computes for a fresh component before
registering it. -/
structure Res : Type where
  mrn : String
  mrsn : String
  mrns : String
  mrk : String
  mrv : String
  mrl : String
  mrc : String
  author : String
  description : String
  mrs : String
  deriving DecidableEq, Repr

/-- The field-computation sequence of `VarsModule.add_resource` for a
fresh component, in source order: short name, namespace and normalized
name are derived from the role name; then `metadata['author']` and
`metadata['description']` are read unguarded (raising `KeyError` when
absent); `version` defaults to `unknown` and `scope` to `global`
behind `in` guards; locator and canonical path are composed from the
kind scheme and the group path. -/
def addResource (resourceName groupPath kind : String)
    (md : List (String × String)) : Except String Res := do
  let mrsn := pyReplace ((pySplit resourceName ".").getLastD "") "_" "-"
  let mrns := (pySplit resourceName ".").headD ""
  let mrn := normalize_name resourceName
  let author ← pyGetItem md "author"
  let description ← pyGetItem md "description"
  let version := (alookup md "version").getD "unknown"
  let scope := (alookup md "scope").getD "global"
  let scheme ← pyGetItem kind_scheme kind
  let mrl := scheme ++ "://" ++ groupPath ++ "/" ++ mrsn
  let mrc := pyReplace groupPath "/" "." ++ "." ++ mrsn
  Except.ok (Res.mk mrn mrsn mrns kind version mrl mrc author description scope)

/-- C6: the claim states that a missing per-component metadata file is
non-fatal and the component is still created with identifiers
populated, author and description absent and version `unknown`.
Evaluating the embedded `add_resource` with the metadata of a missing
file shows it instead raises `KeyError: author` — `metadata()` returns
the empty dict, and the unguarded `metadata['author']` read aborts
graph construction (the exception propagates through `get_vars`, which
re-raises it as `RuntimeError`). -/
theorem C6_missing_metadata_fatal :
    metadata none = [] ∧
    addResource "apps.svc_a" "platform/apps" "service" (metadata none) =
      Except.error "KeyError: author" ∧
    (∀ r : Res, addResource "apps.svc_a" "platform/apps" "service" (metadata none) ≠
      Except.ok r) := by
  refine ⟨rfl, rfl, ?_⟩
  intro r h
  rw [show addResource "apps.svc_a" "platform/apps" "service" (metadata none) =
    Except.error "KeyError: author" from rfl] at h
  cases h

/-! ## Snapshot retention (`manage_files` / `main`)

Before overwriting `/tmp/vars_with_state.json`, `main` renames the
existing file into the retention directory using a timestamp from its
creation time and then calls `manage_files(folder, prefix, 4)`, which
sorts the retained snapshots by creation time and deletes from the
oldest `while len(files) >= max_files`. -/

/-- Insertion sort by creation time (`sorted(..., key=os.path.getctime)`);
files are represented by their creation times. -/
def insertSorted (x : Nat) : List Nat → List Nat
  | [] => [x]
  | y :: t => if x ≤ y then x :: y :: t else y :: insertSorted x t

def sortCtimes (l : List Nat) : List Nat := l.foldr insertSorted []

/-- The `while len(files) >= max_files: os.remove(files.pop(0))` loop
over the sorted file list. -/
def trimOldest : List Nat → Nat → List Nat
  | [], _ => []
  | x :: t, m => if (x :: t).length ≥ m then trimOldest t m else x :: t

/-- `manage_files(directory, prefix, max_files)` on the retained
snapshot files, sorted by creation time, deleting oldest-first. -/
def manage_files (files : List Nat) (max_files : Nat) : List Nat :=
  trimOldest (sortCtimes files) max_files

/-- The snapshot store's on-disk state: the creation time of the
current snapshot (if present) and the creation times of the retained
historical snapshots. -/
structure SnapState : Type where
  current : Option Nat
  hist : List Nat
  deriving DecidableEq, Repr

/-- One reconciliation pass at time `now`: if a current snapshot
exists, move it into the retention directory, enforce retention with
`manage_files(..., 4)`, and write the new current snapshot. -/
def passOnce (s : SnapState) (now : Nat) : SnapState :=
  match s.current with
  | none => { current := some now, hist := s.hist }
  | some ct => { current := some now, hist := manage_files (s.hist ++ [ct]) 4 }

/-- `n` consecutive passes at times `1, 2, ..., n`, starting from an
empty snapshot directory. -/
def runPasses : Nat → SnapState
  | 0 => { current := none, hist := [] }
  | n + 1 => passOnce (runPasses (n)) (n + 1)

/-- C7: the claim states that after `N > 4` passes exactly 4 historical
snapshots remain.  Evaluating the embedded rotation shows that after 5
passes only 3 historical snapshots remain (and likewise for later
passes): the loop `while len(files) >= max_files` deletes until 3 files
are left, contradicting the claim and the source's own comment
`keep only the last max_files files`.  The files kept are the most
recently created ones, oldest deleted first. -/
theorem C7_retention_three_not_four :
    (runPasses 5).hist = [2, 3, 4] ∧ (runPasses 5).hist.length = 3 ∧
    (runPasses 5).hist.length ≠ 4 ∧
    (runPasses 9).hist = [6, 7, 8] ∧ (runPasses 9).hist.length ≠ 4 := by decide

/-! ## Dependency graph inverse edges
(`VarsModule.process_resources_dependencies`)

After all components are registered, a second pass walks every
resource and appends the resource's key to each of its dependencies'
`requiredby` list. -/

/-- The slice of a registered resource relevant to the inverse-edge
pass. -/
structure GraphRes : Type where
  requires : List String
  requiredby : List String
  deriving DecidableEq, Repr

/-- The graph of registered resources, keyed by `mrn`. -/
abbrev Graph : Type := List (String × GraphRes)

/-- `dep_resource.requiredby.append(resource_name)` on the resource
stored at key `dep`. -/
def appendRB (g : Graph) (dep r : String) : Graph :=
  g.map (fun p => if p.1 = dep then (p.1, { p.2 with requiredby := p.2.requiredby ++ [r] }) else p)

/-- The appends performed for all dependencies of one resource. -/
def appendAll (g : Graph) (deps : List String) (r : String) : Graph :=
  deps.foldl (fun g' d => appendRB g' d r) g

/-- The inner loop of `process_resources_dependencies` for resource
`r`: look the resource up and append `r` to each dependency's
`requiredby`. -/
def processOne (g : Graph) (r : String) : Graph :=
  match alookup g r with
  | some res => appendAll g res.requires r
  | none => g

/-- `VarsModule.process_resources_dependencies`: iterate over all
resource keys (the keys are fixed during the pass; only `requiredby`
lists are mutated). -/
def process_resources_dependencies (g : Graph) : Graph :=
  (g.map Prod.fst).foldl processOne g

/-- The `requires` list of the resource at a key, empty when absent. -/
def reqOf (g : Graph) (r : String) : List String :=
  ((alookup g r).map GraphRes.requires).getD []

/-- The occurrences of `r` appended to key `k`'s `requiredby` when
resource `r`'s dependency list is walked: one copy of `r` per
occurrence of `k` among the dependencies. -/
def rbAdd : List String → String → String → List String
  | [], _, _ => []
  | d :: ds, r, k => (if k = d then [r] else []) ++ rbAdd ds r k

/-- Everything appended to key `k`'s `requiredby` over the whole pass,
in pass order. -/
def contribs (g : Graph) : List String → String → List String
  | [], _ => []
  | r :: rs, k => rbAdd (reqOf g r) r k ++ contribs g rs k

theorem alookup_appendRB (g : Graph) (dep r k : String) :
    alookup (appendRB g dep r) k = (alookup g k).map
      (fun R => if k = dep then { R with requiredby := R.requiredby ++ [r] } else R) := by
  induction g with
  | nil => rfl
  | cons p t ih =>
    by_cases hd : p.1 = dep
    · by_cases hk : p.1 = k
      · have : k = dep := hk ▸ hd
        simp [appendRB, alookup, hd, hk, this]
      · have hdk : ¬ dep = k := fun hc => hk (hd.trans hc)
        simp only [appendRB, List.map_cons] at *
        simp [alookup, hd, hk, hdk, ih, appendRB]
    · by_cases hk : p.1 = k
      · have : ¬ k = dep := fun hc => hd (hk.symm ▸ hc ▸ rfl)
        simp [appendRB, alookup, hd, hk, this]
      · simp only [appendRB, List.map_cons] at *
        simp [alookup, hd, hk, ih, appendRB]

theorem alookup_appendAll (deps : List String) (r k : String) :
    ∀ g : Graph, alookup (appendAll g deps r) k = (alookup g k).map
      (fun R => { R with requiredby := R.requiredby ++ rbAdd deps r k }) := by
  induction deps with
  | nil =>
    intro g
    cases h : alookup g k <;> simp [appendAll, h, rbAdd]
  | cons d ds ih =>
    intro g
    have step : appendAll g (d :: ds) r = appendAll (appendRB g d r) ds r := rfl
    rw [step, ih, alookup_appendRB]
    cases h : alookup g k with
    | none => simp
    | some R =>
      by_cases hk : k = d
      · simp [hk, rbAdd, List.append_assoc]
      · simp [hk, rbAdd]

theorem reqOf_appendAll (g : Graph) (deps : List String) (r x : String) :
    reqOf (appendAll g deps r) x = reqOf g x := by
  rw [reqOf, alookup_appendAll]
  cases h : alookup g x <;> simp [reqOf, h]

theorem reqOf_processOne (g : Graph) (r x : String) :
    reqOf (processOne g r) x = reqOf g x := by
  cases h : alookup g r with
  | none => simp [processOne, h]
  | some res => simp [processOne, h, reqOf_appendAll]

theorem processOne_eq (g : Graph) (r : String) :
    processOne g r = appendAll g (reqOf g r) r := by
  cases h : alookup g r with
  | none => simp [processOne, h, reqOf, appendAll]
  | some res => simp [processOne, h, reqOf]

theorem foldl_processOne_lookup (g0 : Graph) (k : String) :
    ∀ (ks : List String) (g : Graph), (∀ x, reqOf g x = reqOf g0 x) →
      alookup (ks.foldl processOne g) k = (alookup g k).map
        (fun R => { R with requiredby := R.requiredby ++ contribs g0 ks k }) := by
  intro ks
  induction ks with
  | nil =>
    intro g _
    cases h : alookup g k <;> simp [contribs, h]
  | cons r rs ih =>
    intro g hinv
    have hinv' : ∀ x, reqOf (processOne g r) x = reqOf g0 x := by
      intro x
      rw [reqOf_processOne]
      exact hinv x
    simp only [List.foldl_cons]
    rw [ih (processOne g r) hinv', processOne_eq, alookup_appendAll]
    cases h : alookup g k with
    | none => simp
    | some R => simp [contribs, hinv r, List.append_assoc]

theorem mem_rbAdd (deps : List String) (r k x : String) :
    x ∈ rbAdd deps r k ↔ x = r ∧ k ∈ deps := by
  induction deps with
  | nil => simp [rbAdd]
  | cons d ds ih =>
    by_cases hk : k = d
    · subst hk
      simp [rbAdd, ih]
      tauto
    · simp [rbAdd, hk, ih]

theorem mem_contribs (g : Graph) (ks : List String) (k x : String) :
    x ∈ contribs g ks k ↔ x ∈ ks ∧ k ∈ reqOf g x := by
  induction ks with
  | nil => simp [contribs]
  | cons r rs ih =>
    simp only [contribs, List.mem_append, mem_rbAdd, ih, List.mem_cons]
    constructor
    · intro hm
      cases hm with
      | inl hm => exact ⟨Or.inl hm.1, hm.1 ▸ hm.2⟩
      | inr hm => exact ⟨Or.inr hm.1, hm.2⟩
    · intro hm
      cases hm.1 with
      | inl hx => exact Or.inl ⟨hx, hx ▸ hm.2⟩
      | inr hx => exact Or.inr ⟨hx, hm.2⟩

/-- C9: after the full inverse-edge pass, for all components A (at key
`a`) and B (at key `b`) of the built graph — with every `requiredby`
list starting empty and every `requires` entry resolvable, as the
builder guarantees — `b` is in A's `requires` exactly when `a` is in
B's `requiredby`. -/
theorem C9_inverse_edges (g : Graph)
    (hnd : (g.map Prod.fst).Nodup)
    (hinit : ∀ p ∈ g, p.2.requiredby = ([] : List String))
    (hclosed : ∀ p ∈ g, ∀ d ∈ p.2.requires, d ∈ g.map Prod.fst) :
    ∀ (a b : String) (A B : GraphRes),
      alookup (process_resources_dependencies g) a = some A →
      alookup (process_resources_dependencies g) b = some B →
      (b ∈ A.requires ↔ a ∈ B.requiredby) := by
  intro a b A B ha hb
  have hchar := foldl_processOne_lookup g a (g.map Prod.fst) g (fun _ => rfl)
  have hcharb := foldl_processOne_lookup g b (g.map Prod.fst) g (fun _ => rfl)
  rw [process_resources_dependencies] at ha hb
  rw [hchar] at ha
  rw [hcharb] at hb
  cases hga : alookup g a with
  | none => rw [hga] at ha; cases ha
  | some A0 =>
    cases hgb : alookup g b with
    | none => rw [hgb] at hb; cases hb
    | some B0 =>
      rw [hga] at ha
      rw [hgb] at hb
      simp only [Option.map_some', Option.some.injEq] at ha hb
      have hB0 : B0.requiredby = [] := hinit (b, B0) (alookup_mem hgb)
      have hmemk : a ∈ g.map Prod.fst := alookup_isSome_mem_keys hga
      have hreq : A.requires = A0.requires := by rw [← ha]
      have hrb : B.requiredby = contribs g (g.map Prod.fst) b := by
        rw [← hb]
        simp [hB0]
      have hreqa : reqOf g a = A0.requires := by simp [reqOf, hga]
      rw [hreq, hrb, mem_contribs, hreqa]
      constructor
      · intro h
        exact ⟨hmemk, h⟩
      · intro h
        exact h.2

/-- Concrete two-component graph for the C9 witness: `a` requires `b`. -/
def c9Graph : Graph := [("a", GraphRes.mk ["b"] []), ("b", GraphRes.mk [] [])]

/-- Witness for C9 at a concrete graph. -/
theorem C9_inverse_edges_witness :
    (c9Graph.map Prod.fst).Nodup ∧
    (∀ p ∈ c9Graph, p.2.requiredby = ([] : List String)) ∧
    (∀ p ∈ c9Graph, ∀ d ∈ p.2.requires, d ∈ c9Graph.map Prod.fst) ∧
    alookup (process_resources_dependencies c9Graph) "a" = some (GraphRes.mk ["b"] []) ∧
    alookup (process_resources_dependencies c9Graph) "b" = some (GraphRes.mk [] ["a"]) ∧
    ("b" ∈ (GraphRes.mk ["b"] []).requires ↔ "a" ∈ (GraphRes.mk [] ["a"]).requiredby) := by
  refine ⟨by decide, by decide, by decide, by decide, by decide, ?_⟩
  exact C9_inverse_edges c9Graph (by decide) (by decide) (by decide) "a" "b"
    (GraphRes.mk ["b"] []) (GraphRes.mk [] ["a"]) (by decide) (by decide)
